import Mathlib

/-
Verification of the two-phase hybrid OVR/OVO ensemble classifier in
src/svmAuthorRec.py.

The prediction path of the program is pure: a trained binary estimator is
modelled by its prediction function on samples, returning a Bool (the
code's 0/1 votes, with true standing for 1).  Vote counting, tallies and
the phase-1/phase-2 decision rules are translated line by line from
hybrid_classification_for_fold, get_ovr_estimators_prediction and
get_ovo_estimators_prediction.  Per-fold fractions and the cross-fold
reduction (numpy mean, scipy.stats.sem) are modelled over the rationals;
the standard error is represented by its square so that everything stays
inside an exact, computable field.
-/

namespace SvmAuthorRec

/-- Sentinel for an unclassified sample, line 517 of the source:
y_test_predict is initialised to -1, an invalid label value. -/
def UNCLASSIFIED : Int := -1

/-- Module constant NUMFOLDS = 10 (line 31), the repetition count handed to
StratifiedShuffleSplit as n_iter. -/
def NUMFOLDS : Nat := 10

/-- Held-out fraction: hybrid_classification builds its splitter with
test_size = .35 (line 458). -/
def hybridTestSize : ℚ := 35 / 100

/-- Count of positive entries of a binary vote vector: the code's
np.sum(sample_prediction) over a 0/1 row (line 520). -/
def countTrue : List Bool → Nat
  | [] => 0
  | true :: rest => 1 + countTrue rest
  | false :: rest => countTrue rest

/-- Index of the first true entry: np.nonzero(sample_prediction)[0][0]
(line 521). -/
def firstTrueIdx : List Bool → Option Nat
  | [] => none
  | true :: _ => some 0
  | false :: rest => (firstTrueIdx rest).map (· + 1)

/-- Trained One-vs-Rest ensemble: ovr.classes_ together with
ovr.estimators_, estimator index c voting for classes_[c] (lines 497-521).
Each trained estimator is its predict function on one sample. -/
structure OVREnsemble (α : Type) where
  classes : List Int
  estimators : List (α → Bool)

/-- Row of sample_predictions_per_ovr_estimator for one sample: the vector
of every OVR estimator's binary prediction on it (lines 503-507, after the
transpose). -/
def ovrVotes {α : Type} (estimators : List (α → Bool)) (x : α) : List Bool :=
  estimators.map (fun e => e x)

/-- Phase-1 decision for one test sample (lines 519-523): if the vote sum
is exactly 1, assign ovr.classes_[first positive index]; otherwise leave
the -1 the outcome vector was initialised with. -/
def phase1Sample {α : Type} (ovr : OVREnsemble α) (x : α) : Int :=
  let votes := ovrVotes ovr.estimators x
  if countTrue votes = 1 then
    match firstTrueIdx votes with
    | some i => ovr.classes.getD i UNCLASSIFIED
    | none => UNCLASSIFIED
  else UNCLASSIFIED

/-- Phase-1 outcome vector y_test_predict after the loop of lines 519-523:
classified samples carry their class, all others the sentinel. -/
def phase1Predict {α : Type} (ovr : OVREnsemble α) (xs : List α) : List Int :=
  xs.map (phase1Sample ovr)

/-- Indices collected in test_indices_unclassified_in_phase1: positions of
the enumerate loop whose vote sum differs from 1 (lines 516, 523). -/
def phase1UnclassifiedIdx {α : Type} (ovr : OVREnsemble α) (xs : List α) : List Nat :=
  ((xs.enum).filter
    (fun p => decide (countTrue (ovrVotes ovr.estimators p.2) ≠ 1))).map Prod.fst

/-- Enumeration order of the OVO pairwise estimators (lines 614-621): the
nested loop for i in range(n_classes), for j in range(i+1, n_classes),
advancing one running index k. -/
def ovoPairs (C : Nat) : List (Nat × Nat) :=
  (List.range C).flatMap (fun i => (List.range' (i + 1) (C - (i + 1))).map (fun j => (i, j)))

/-- One tally increment, votes[row, c] += 1. -/
def addVote (tally : List Nat) (c : Nat) : List Nat :=
  tally.set c (tally.getD c 0 + 1)

/-- Trained One-vs-One ensemble: ovo.classes_ and ovo.estimators_, the
latter listed in the running-index order of ovoPairs (lines 534-537). -/
structure OVOEnsemble (α : Type) where
  classes : List Int
  estimators : List (α → Bool)

/-- Effect of one pairwise estimator on a sample's tally (lines 619-620):
votes[pred == 0, i] += 1 and votes[pred == 1, j] += 1. -/
def ovoStep {α : Type} (x : α) (tally : List Nat) (pe : (Nat × Nat) × (α → Bool)) : List Nat :=
  if pe.2 x then addVote tally pe.1.2 else addVote tally pe.1.1

/-- Vote tally of one sample after all pairwise estimators (lines 612-621):
a zero row of length n_classes, then one increment per pair (i, j) in
enumeration order, estimator k serving pair number k. -/
def ovoTally {α : Type} (ovo : OVOEnsemble α) (x : α) : List Nat :=
  ((ovoPairs ovo.classes.length).zip ovo.estimators).foldl (ovoStep x)
    (List.replicate ovo.classes.length 0)

/-- Maximum entry of a tally row, np.max(votes, axis=1) for that row. -/
def listMax (t : List Nat) : Nat := t.foldr max 0

/-- Number of classes attaining the row maximum, maxima.sum(axis=1) for
that row (lines 624-627). -/
def countMaxima (t : List Nat) : Nat := t.countP (fun v => decide (v = listMax t))

/-- First index attaining the row maximum, votes.argmax(axis=1) for that
row (line 630). -/
def argmaxIdx (t : List Nat) : Nat :=
  (firstTrueIdx (t.map (fun v => decide (v = listMax t)))).getD 0

/-- Batch semantics of get_ovo_estimators_prediction (lines 610-630): the
scalar -1 when ANY row of the batch has a tied maximum, otherwise the
array classes[votes.argmax(axis=1)]. -/
def get_ovo_estimators_prediction {α : Type} (ovo : OVOEnsemble α) (X : List α) :
    Int ⊕ List Int :=
  let tallies := X.map (ovoTally ovo)
  if tallies.any (fun t => decide (1 < countMaxima t)) then Sum.inl (-1)
  else Sum.inr (tallies.map (fun t => ovo.classes.getD (argmaxIdx t) UNCLASSIFIED))

/-- Phase-2 answer for one deferred sample, as the caller obtains it: line
540 reshapes x_test[index] into a one-row matrix before the call. -/
def ovoPredictSingle {α : Type} (ovo : OVOEnsemble α) (x : α) : Int :=
  match get_ovo_estimators_prediction ovo [x] with
  | Sum.inl v => v
  | Sum.inr l => l.getD 0 UNCLASSIFIED

/-- Body of the phase-2 loop (lines 539-542) for one recorded index:
fetch the test row, ask the OVO engine, and overwrite the outcome entry
only when the answer differs from -1. -/
def phase2Step {α : Type} (ovo : OVOEnsemble α) (xs : List α)
    (p : List Int) (index : Nat) : List Int :=
  match xs[index]? with
  | none => p
  | some xv =>
    let y := ovoPredictSingle ovo xv
    if y ≠ -1 then p.set index y else p

/-- Phase-2 pass over the outcome vector (lines 539-542): one phase2Step
per recorded unclassified index. -/
def phase2Update {α : Type} (ovo : OVOEnsemble α) (xs : List α)
    (pred : List Int) (unclass : List Nat) : List Int :=
  unclass.foldl (phase2Step ovo xs) pred

/-- Full prediction path of hybrid_classification_for_fold on trained
ensembles: phase 1 over the whole test set, then phase 2 over the recorded
unclassified indices. -/
def hybridFoldPredict {α : Type} (ovr : OVREnsemble α) (ovo : OVOEnsemble α)
    (xs : List α) : List Int :=
  phase2Update ovo xs (phase1Predict ovr xs) (phase1UnclassifiedIdx ovr xs)

/-- Numerator of the correct fraction, np.sum(y_test_predict == y_test)
(lines 527, 546). -/
def correctCount (pred y_test : List Int) : Nat :=
  (pred.zip y_test).countP (fun p => decide (p.1 = p.2))

/-- Numerator of the incorrect fraction: entries differing from the true
label and from -1 (lines 528, 547). -/
def incorrectCount (pred y_test : List Int) : Nat :=
  (pred.zip y_test).countP (fun p => decide (p.1 ≠ p.2 ∧ p.1 ≠ -1))

/-- Numerator of the unclassified fraction, np.sum(y_test_predict == -1)
(lines 529, 548). -/
def unclassifiedCount (pred : List Int) : Nat :=
  pred.countP (fun v => decide (v = -1))

/-- Correct fraction of a phase: count divided by len(y_test). -/
def correctFrac (pred y_test : List Int) : ℚ :=
  (correctCount pred y_test : ℚ) / (y_test.length : ℚ)

/-- Incorrect fraction of a phase. -/
def incorrectFrac (pred y_test : List Int) : ℚ :=
  (incorrectCount pred y_test : ℚ) / (y_test.length : ℚ)

/-- Unclassified fraction of a phase. -/
def unclassifiedFrac (pred y_test : List Int) : ℚ :=
  (unclassifiedCount pred : ℚ) / (y_test.length : ℚ)

/-- Mean of the per-fold values of one metric, np.mean (lines 469-475). -/
def mean (l : List ℚ) : ℚ := l.sum / (l.length : ℚ)

/-- Square of scipy.stats.sem applied to the per-fold values (lines
469-475): sem's documented default is ddof = 1, so sem(l)^2 is the
Bessel-corrected sample variance divided by the number of folds. -/
def semSq (l : List ℚ) : ℚ :=
  ((l.map (fun v => (v - mean l) ^ 2)).sum / ((l.length : ℚ) - 1)) / (l.length : ℚ)

/-- Square of the population standard error of the spec's words (section 8:
the population standard error formula): population variance, ddof = 0,
divided by the number of folds.  Written only to be compared with semSq. -/
def popSemSq (l : List ℚ) : ℚ :=
  ((l.map (fun v => (v - mean l) ^ 2)).sum / (l.length : ℚ)) / (l.length : ℚ)

/-- Reduction reported for one of the seven metrics: its mean and (the
square of) its standard error across the folds. -/
def reduceMetric (l : List ℚ) : ℚ × ℚ := (mean l, semSq l)

/-- Fold loop of hybrid_classification (lines 458-462): one result appended
per split yielded by StratifiedShuffleSplit(n_iter = NUMFOLDS). -/
def foldResults {β : Type} (runFold : Nat → β) : List β :=
  (List.range NUMFOLDS).map runFold

/-- Concrete pairwise estimator for the pair (0, 1) of the worked example
below. -/
def e01 : Nat → Bool := fun n => decide (n % 2 = 1)

/-- Concrete pairwise estimator for the pair (0, 2). -/
def e02 : Nat → Bool := fun n => decide (2 ≤ n)

/-- Concrete pairwise estimator for the pair (1, 2). -/
def e12 : Nat → Bool := fun n => decide (n % 3 = 0)

/-- Worked three-class OVO ensemble over Nat samples, estimators listed in
running-index order (0,1), (0,2), (1,2). -/
def exOvo : OVOEnsemble Nat :=
  { classes := [0, 1, 2], estimators := [e01, e02, e12] }

/-- Worked three-class OVR ensemble over Nat samples. -/
def exOvr : OVREnsemble Nat :=
  { classes := [0, 1, 2],
    estimators := [fun n => decide (n = 0), fun n => decide (n = 1), fun n => decide (5 ≤ n)] }

end SvmAuthorRec

namespace SvmAuthorRec

theorem countTrue_eq_zero : ∀ {l : List Bool}, (∀ j : Nat, l[j]? ≠ some true) → countTrue l = 0 := by
  intro l
  induction l with
  | nil => intro _; rfl
  | cons b rest ih =>
    intro h
    have hb : b = false := by
      have h0 := h 0
      cases b
      · rfl
      · simp at h0
    subst hb
    simp only [countTrue]
    exact ih fun j => by simpa using h (j + 1)

theorem countTrue_eq_one_of_unique : ∀ {l : List Bool} {i : Nat},
    l[i]? = some true → (∀ j : Nat, j ≠ i → l[j]? ≠ some true) → countTrue l = 1 := by
  intro l
  induction l with
  | nil => intro i hi _; simp at hi
  | cons b rest ih =>
    intro i hi huniq
    cases i with
    | zero =>
      simp only [List.getElem?_cons_zero, Option.some.injEq] at hi
      subst hi
      simp only [countTrue]
      have h0 : countTrue rest = 0 := by
        refine countTrue_eq_zero fun j => ?_
        simpa using huniq (j + 1) (by omega)
      omega
    | succ k =>
      simp only [List.getElem?_cons_succ] at hi
      have hb : b = false := by
        have h0 := huniq 0 (by omega)
        cases b
        · rfl
        · simp at h0
      subst hb
      simp only [countTrue]
      exact ih hi fun j hj => by simpa using huniq (j + 1) (by omega)

theorem firstTrueIdx_eq_of_unique : ∀ {l : List Bool} {i : Nat},
    l[i]? = some true → (∀ j : Nat, j ≠ i → l[j]? ≠ some true) → firstTrueIdx l = some i := by
  intro l
  induction l with
  | nil => intro i hi _; simp at hi
  | cons b rest ih =>
    intro i hi huniq
    cases i with
    | zero =>
      simp only [List.getElem?_cons_zero, Option.some.injEq] at hi
      subst hi
      rfl
    | succ k =>
      simp only [List.getElem?_cons_succ] at hi
      have hb : b = false := by
        have h0 := huniq 0 (by omega)
        cases b
        · rfl
        · simp at h0
      subst hb
      simp only [firstTrueIdx]
      rw [ih hi fun j hj => by simpa using huniq (j + 1) (by omega)]
      rfl

theorem firstTrueIdx_of_countTrue_pos : ∀ {l : List Bool}, 0 < countTrue l →
    ∃ i, firstTrueIdx l = some i ∧ i < l.length := by
  intro l
  induction l with
  | nil => intro h; simp [countTrue] at h
  | cons b rest ih =>
    intro h
    cases b with
    | true => exact ⟨0, rfl, by simp⟩
    | false =>
      simp only [countTrue] at h
      obtain ⟨i, hfi, hlt⟩ := ih h
      refine ⟨i + 1, ?_, by simp; omega⟩
      simp [firstTrueIdx, hfi]

theorem firstTrueIdx_map_exists {α : Type} {p : α → Bool} : ∀ {t : List α},
    (∃ a ∈ t, p a = true) →
    ∃ i, firstTrueIdx (t.map p) = some i ∧ i < t.length := by
  intro t
  induction t with
  | nil => intro h; simp at h
  | cons a rest ih =>
    intro h
    cases hpa : p a with
    | true => exact ⟨0, by simp [firstTrueIdx, hpa], by simp⟩
    | false =>
      obtain ⟨b, hb, hpb⟩ := h
      rcases List.mem_cons.mp hb with rfl | hbr
      · rw [hpa] at hpb
        exact absurd hpb (by simp)
      · obtain ⟨i, hfi, hlt⟩ := ih ⟨b, hbr, hpb⟩
        refine ⟨i + 1, ?_, by simp; omega⟩
        simp [firstTrueIdx, hpa, hfi]

theorem listMax_mem : ∀ {t : List Nat}, t ≠ [] → listMax t ∈ t := by
  intro t
  induction t with
  | nil => intro h; exact absurd rfl h
  | cons a rest ih =>
    intro _
    cases rest with
    | nil => simp [listMax]
    | cons b more =>
      have hrest : listMax (b :: more) ∈ b :: more := ih (by simp)
      rcases Nat.le_total (listMax (b :: more)) a with hle | hle
      · have hmax : listMax (a :: b :: more) = a := by
          show max a (listMax (b :: more)) = a
          exact Nat.max_eq_left hle
        rw [hmax]
        exact List.mem_cons_self a _
      · have hmax : listMax (a :: b :: more) = listMax (b :: more) := by
          show max a (listMax (b :: more)) = listMax (b :: more)
          exact Nat.max_eq_right hle
        rw [hmax]
        exact List.mem_cons_of_mem a hrest

theorem countMaxima_pos {t : List Nat} (h : t ≠ []) : 0 < countMaxima t :=
  List.countP_pos_iff.mpr ⟨listMax t, listMax_mem h, by simp⟩

theorem argmaxIdx_lt_length {t : List Nat} (h : t ≠ []) : argmaxIdx t < t.length := by
  obtain ⟨i, hfi, hlt⟩ :=
    firstTrueIdx_map_exists (t := t) (p := fun v => decide (v = listMax t))
      ⟨listMax t, listMax_mem h, by simp⟩
  simpa [argmaxIdx, hfi] using hlt

end SvmAuthorRec

namespace SvmAuthorRec

/-- Lexicographic order on class pairs: the order in which the nested loop
of lines 615-616 emits them. -/
def pairLexLt (p q : Nat × Nat) : Prop :=
  p.1 < q.1 ∨ (p.1 = q.1 ∧ p.2 < q.2)

/-- Predicate picking out, among the zipped (pair, estimator) sequence, the
entries whose vote on sample x goes to class c. -/
def pairVoteFor {α : Type} (x : α) (c : Nat) (pe : (Nat × Nat) × (α → Bool)) : Bool :=
  if pe.2 x then decide (pe.1.2 = c) else decide (pe.1.1 = c)

theorem addVote_length (t : List Nat) (c : Nat) : (addVote t c).length = t.length :=
  List.length_set t c _

theorem getD_addVote_self {t : List Nat} {c : Nat} (h : c < t.length) :
    (addVote t c).getD c 0 = t.getD c 0 + 1 := by
  simp only [addVote, List.getD_eq_getElem?_getD]
  rw [List.getElem?_set_eq_of_lt _ h]
  rfl

theorem getD_addVote_ne {t : List Nat} {c d : Nat} (h : c ≠ d) :
    (addVote t c).getD d 0 = t.getD d 0 := by
  simp only [addVote, List.getD_eq_getElem?_getD]
  rw [List.getElem?_set_ne h]

theorem ovoStep_length {α : Type} (x : α) (t : List Nat) (pe : (Nat × Nat) × (α → Bool)) :
    (ovoStep x t pe).length = t.length := by
  unfold ovoStep
  cases pe.2 x <;> simp [addVote_length]

theorem foldl_ovoStep_length {α : Type} (x : α) :
    ∀ (l : List ((Nat × Nat) × (α → Bool))) (t : List Nat),
    (l.foldl (ovoStep x) t).length = t.length := by
  intro l
  induction l with
  | nil => intro t; rfl
  | cons pe rest ih =>
    intro t
    rw [List.foldl_cons, ih, ovoStep_length]

theorem ovoTally_length {α : Type} (ovo : OVOEnsemble α) (x : α) :
    (ovoTally ovo x).length = ovo.classes.length := by
  unfold ovoTally
  rw [foldl_ovoStep_length, List.length_replicate]

theorem getD_ovoStep {α : Type} (x : α) (t : List Nat) (pe : (Nat × Nat) × (α → Bool))
    (hp1 : pe.1.1 < t.length) (hp2 : pe.1.2 < t.length) (c : Nat) :
    (ovoStep x t pe).getD c 0 = t.getD c 0 + (if pairVoteFor x c pe then 1 else 0) := by
  cases hpe : pe.2 x with
  | true =>
    have hstep : ovoStep x t pe = addVote t pe.1.2 := by simp [ovoStep, hpe]
    have hvote : pairVoteFor x c pe = decide (pe.1.2 = c) := by simp [pairVoteFor, hpe]
    rw [hstep, hvote]
    by_cases hc : pe.1.2 = c
    · subst hc
      rw [getD_addVote_self hp2]
      simp
    · rw [getD_addVote_ne hc]
      simp [hc]
  | false =>
    have hstep : ovoStep x t pe = addVote t pe.1.1 := by simp [ovoStep, hpe]
    have hvote : pairVoteFor x c pe = decide (pe.1.1 = c) := by simp [pairVoteFor, hpe]
    rw [hstep, hvote]
    by_cases hc : pe.1.1 = c
    · subst hc
      rw [getD_addVote_self hp1]
      simp
    · rw [getD_addVote_ne hc]
      simp [hc]

theorem foldl_ovoStep_getD {α : Type} (x : α) (c : Nat) :
    ∀ (l : List ((Nat × Nat) × (α → Bool))) (t : List Nat),
    (∀ pe ∈ l, pe.1.1 < t.length ∧ pe.1.2 < t.length) →
    (l.foldl (ovoStep x) t).getD c 0 = t.getD c 0 + l.countP (pairVoteFor x c) := by
  intro l
  induction l with
  | nil => intro t _; simp
  | cons pe rest ih =>
    intro t hall
    have hpe := hall pe (List.mem_cons_self pe rest)
    have hrest : ∀ q ∈ rest, q.1.1 < (ovoStep x t pe).length ∧ q.1.2 < (ovoStep x t pe).length := by
      intro q hq
      rw [ovoStep_length]
      exact hall q (List.mem_cons_of_mem pe hq)
    rw [List.foldl_cons, ih (ovoStep x t pe) hrest,
      getD_ovoStep x t pe hpe.1 hpe.2 c, List.countP_cons]
    omega

theorem mem_ovoPairs {C i j : Nat} : (i, j) ∈ ovoPairs C ↔ i < j ∧ j < C := by
  simp only [ovoPairs, List.mem_flatMap, List.mem_map, List.mem_range,
    List.mem_range'_1, Prod.mk.injEq]
  constructor
  · rintro ⟨a, ha, b, hb, rfl, rfl⟩
    omega
  · rintro ⟨hij, hjC⟩
    exact ⟨i, by omega, j, by omega, rfl, rfl⟩

theorem sum_range_list (f : Nat → Nat) : ∀ n : Nat,
    ((List.range n).map f).sum = ∑ i in Finset.range n, f i := by
  intro n
  induction n with
  | zero => simp
  | succ n ih =>
    rw [List.range_succ, List.map_append, List.sum_append, Finset.sum_range_succ, ih]
    simp

theorem length_ovoPairs (C : Nat) : (ovoPairs C).length = C * (C - 1) / 2 := by
  have h1 : (ovoPairs C).length = ∑ i in Finset.range C, (C - (i + 1)) := by
    rw [ovoPairs, List.length_flatMap, ← sum_range_list]
    congr 1
    refine List.map_congr_left fun i _ => ?_
    simp
  have h2 : ∑ i in Finset.range C, (C - (i + 1)) = ∑ i in Finset.range C, i := by
    calc ∑ i in Finset.range C, (C - (i + 1))
        = ∑ i in Finset.range C, (C - 1 - i) := by
          refine Finset.sum_congr rfl fun i _ => by omega
      _ = ∑ i in Finset.range C, i := Finset.sum_range_reflect (fun i => i) C
  have h3 := Finset.sum_range_id_mul_two C
  omega

theorem pairwise_ovoPairs (C : Nat) : (ovoPairs C).Pairwise pairLexLt := by
  rw [ovoPairs, List.flatMap_def, List.pairwise_flatten]
  constructor
  · intro l' hl'
    obtain ⟨i, _, rfl⟩ := List.mem_map.mp hl'
    rw [List.pairwise_map]
    refine List.Pairwise.imp ?_ (List.pairwise_lt_range' (i + 1) (C - (i + 1)))
    intro a b hab
    exact Or.inr ⟨rfl, hab⟩
  · rw [List.pairwise_map]
    refine List.Pairwise.imp ?_ (List.pairwise_lt_range C)
    intro a b hab p hp q hq
    obtain ⟨jp, _, rfl⟩ := List.mem_map.mp hp
    obtain ⟨jq, _, rfl⟩ := List.mem_map.mp hq
    exact Or.inl hab

end SvmAuthorRec

namespace SvmAuthorRec

theorem phase2Step_length {α : Type} (ovo : OVOEnsemble α) (xs : List α)
    (p : List Int) (u : Nat) : (phase2Step ovo xs p u).length = p.length := by
  unfold phase2Step
  cases xs[u]? with
  | none => rfl
  | some xv =>
    dsimp only
    split
    · exact List.length_set p u _
    · rfl

theorem phase2Update_length {α : Type} (ovo : OVOEnsemble α) (xs : List α) :
    ∀ (unclass : List Nat) (pred : List Int),
    (phase2Update ovo xs pred unclass).length = pred.length := by
  intro unclass
  induction unclass with
  | nil => intro pred; rfl
  | cons u rest ih =>
    intro pred
    have hstep : phase2Update ovo xs pred (u :: rest)
        = phase2Update ovo xs (phase2Step ovo xs pred u) rest := rfl
    rw [hstep, ih, phase2Step_length]

theorem phase2Step_getElem?_ne {α : Type} (ovo : OVOEnsemble α) (xs : List α)
    (p : List Int) {u i : Nat} (hiu : i ≠ u) :
    (phase2Step ovo xs p u)[i]? = p[i]? := by
  unfold phase2Step
  cases xs[u]? with
  | none => rfl
  | some xv =>
    dsimp only
    split
    · exact List.getElem?_set_ne (Ne.symm hiu)
    · rfl

theorem phase2Update_getElem?_of_not_mem {α : Type} (ovo : OVOEnsemble α) (xs : List α) :
    ∀ (unclass : List Nat) (pred : List Int) (i : Nat), i ∉ unclass →
    (phase2Update ovo xs pred unclass)[i]? = pred[i]? := by
  intro unclass
  induction unclass with
  | nil => intro pred i _; rfl
  | cons u rest ih =>
    intro pred i hi
    have hiu : i ≠ u := fun h => hi (h ▸ List.mem_cons_self u rest)
    have hirest : i ∉ rest := fun h => hi (List.mem_cons_of_mem u h)
    have hstep : phase2Update ovo xs pred (u :: rest)
        = phase2Update ovo xs (phase2Step ovo xs pred u) rest := rfl
    rw [hstep, ih _ i hirest, phase2Step_getElem?_ne ovo xs pred hiu]

theorem phase1Predict_length {α : Type} (ovr : OVREnsemble α) (xs : List α) :
    (phase1Predict ovr xs).length = xs.length :=
  List.length_map xs (phase1Sample ovr)

theorem hybridFoldPredict_length {α : Type} (ovr : OVREnsemble α) (ovo : OVOEnsemble α)
    (xs : List α) : (hybridFoldPredict ovr ovo xs).length = xs.length := by
  unfold hybridFoldPredict
  rw [phase2Update_length, phase1Predict_length]

theorem counts_partition : ∀ (pred y_test : List Int), pred.length = y_test.length →
    (∀ y ∈ y_test, 0 ≤ y) →
    correctCount pred y_test + incorrectCount pred y_test + unclassifiedCount pred
      = y_test.length := by
  intro pred
  induction pred with
  | nil =>
    intro yt hlen _
    cases yt with
    | nil => rfl
    | cons y ys => simp at hlen
  | cons p ps ih =>
    intro yt hlen hy
    cases yt with
    | nil => simp at hlen
    | cons y ys =>
      have hlen' : ps.length = ys.length := by simpa using hlen
      have hy' : ∀ z ∈ ys, 0 ≤ z := fun z hz => hy z (List.mem_cons_of_mem y hz)
      have hy0 : (0 : Int) ≤ y := hy y (List.mem_cons_self y ys)
      have hrec := ih ys hlen' hy'
      simp only [correctCount, incorrectCount, unclassifiedCount] at hrec ⊢
      simp only [List.zip_cons_cons, List.countP_cons, List.length_cons]
      by_cases h2 : p = -1
      · have h1 : p ≠ y := by omega
        have e1 : (if decide (p = y) = true then (1 : Nat) else 0) = 0 := by simp [h1]
        have e2 : (if decide (p ≠ y ∧ p ≠ -1) = true then (1 : Nat) else 0) = 0 := by simp [h2]
        have e3 : (if decide (p = -1) = true then (1 : Nat) else 0) = 1 := by simp [h2]
        rw [e1, e2, e3]
        omega
      · by_cases h1 : p = y
        · have e1 : (if decide (p = y) = true then (1 : Nat) else 0) = 1 := by simp [h1]
          have e2 : (if decide (p ≠ y ∧ p ≠ -1) = true then (1 : Nat) else 0) = 0 := by simp [h1]
          have e3 : (if decide (p = -1) = true then (1 : Nat) else 0) = 0 := by simp [h2]
          rw [e1, e2, e3]
          omega
        · have e1 : (if decide (p = y) = true then (1 : Nat) else 0) = 0 := by simp [h1]
          have e2 : (if decide (p ≠ y ∧ p ≠ -1) = true then (1 : Nat) else 0) = 1 := by
            simp [h1, h2]
          have e3 : (if decide (p = -1) = true then (1 : Nat) else 0) = 0 := by simp [h2]
          rw [e1, e2, e3]
          omega

end SvmAuthorRec

namespace SvmAuthorRec

/-- C1: Phase-1 decision rule.  For every test sample, the phase-1 outcome
is UNCLASSIFIED iff the count of positive OVR votes differs from 1, and
when exactly one estimator (index i) votes 1 the sample is assigned
ovr.classes_[i]. -/
theorem phase1_decision_rule {α : Type} (ovr : OVREnsemble α) (x : α)
    (hcls : ∀ c ∈ ovr.classes, 0 ≤ c)
    (hlen : ovr.estimators.length = ovr.classes.length) :
    (phase1Sample ovr x = UNCLASSIFIED ↔ countTrue (ovrVotes ovr.estimators x) ≠ 1)
    ∧ (∀ i : Nat, (ovrVotes ovr.estimators x)[i]? = some true →
        (∀ j : Nat, j ≠ i → (ovrVotes ovr.estimators x)[j]? ≠ some true) →
        phase1Sample ovr x = ovr.classes.getD i UNCLASSIFIED) := by
  have hvlen : (ovrVotes ovr.estimators x).length = ovr.classes.length := by
    rw [ovrVotes, List.length_map, hlen]
  constructor
  · constructor
    · intro hres hcnt
      obtain ⟨i, hfi, hlt⟩ :=
        firstTrueIdx_of_countTrue_pos (l := ovrVotes ovr.estimators x) (by omega)
      have hval : phase1Sample ovr x = ovr.classes.getD i UNCLASSIFIED := by
        simp only [phase1Sample]
        rw [if_pos hcnt, hfi]
      rw [hval] at hres
      have hilt : i < ovr.classes.length := by omega
      have hmem : ovr.classes.getD i UNCLASSIFIED ∈ ovr.classes := by
        rw [List.getD_eq_getElem _ _ hilt]
        exact List.getElem_mem hilt
      have hge := hcls _ hmem
      rw [hres] at hge
      simp only [UNCLASSIFIED] at hge
      omega
    · intro hcnt
      simp only [phase1Sample]
      rw [if_neg hcnt]
  · intro i hi huniq
    have hcnt : countTrue (ovrVotes ovr.estimators x) = 1 :=
      countTrue_eq_one_of_unique hi huniq
    have hfi : firstTrueIdx (ovrVotes ovr.estimators x) = some i :=
      firstTrueIdx_eq_of_unique hi huniq
    simp only [phase1Sample]
    rw [if_pos hcnt, hfi]

/-- Witness for C1: the worked OVR ensemble at sample 0 satisfies both
hypotheses and the decision-rule equivalence. -/
theorem phase1_decision_rule_witness :
    (∀ c ∈ exOvr.classes, (0 : Int) ≤ c)
    ∧ exOvr.estimators.length = exOvr.classes.length
    ∧ (phase1Sample exOvr 0 = UNCLASSIFIED ↔ countTrue (ovrVotes exOvr.estimators 0) ≠ 1) :=
  ⟨by decide, rfl, (phase1_decision_rule exOvr 0 (by decide) rfl).1⟩

/-- C2: Phase-2 decision rule.  For a sample handed to phase 2 (the caller
passes a one-row matrix), the outcome is UNCLASSIFIED iff at least two
classes attain the maximal tally; with a unique maximum the sample gets
classes[argmax]. -/
theorem phase2_decision_rule {α : Type} (ovo : OVOEnsemble α) (x : α)
    (hne : ovo.classes ≠ []) (hcls : ∀ c ∈ ovo.classes, 0 ≤ c) :
    (ovoPredictSingle ovo x = UNCLASSIFIED ↔ 2 ≤ countMaxima (ovoTally ovo x))
    ∧ (countMaxima (ovoTally ovo x) = 1 →
        ovoPredictSingle ovo x
          = ovo.classes.getD (argmaxIdx (ovoTally ovo x)) UNCLASSIFIED) := by
  have htl : (ovoTally ovo x).length = ovo.classes.length := ovoTally_length ovo x
  have htne : ovoTally ovo x ≠ [] := by
    intro h
    apply hne
    rw [h] at htl
    exact List.eq_nil_of_length_eq_zero htl.symm
  by_cases htie : 1 < countMaxima (ovoTally ovo x)
  · have hpred : ovoPredictSingle ovo x = -1 := by
      simp [ovoPredictSingle, get_ovo_estimators_prediction, htie]
    refine ⟨⟨fun _ => by omega, fun _ => hpred⟩, fun h1 => by omega⟩
  · have hone : countMaxima (ovoTally ovo x) = 1 := by
      have := countMaxima_pos htne
      omega
    have hpred : ovoPredictSingle ovo x
        = ovo.classes.getD (argmaxIdx (ovoTally ovo x)) UNCLASSIFIED := by
      simp [ovoPredictSingle, get_ovo_estimators_prediction, htie]
    refine ⟨⟨fun hres => ?_, fun h2 => by omega⟩, fun _ => hpred⟩
    exfalso
    rw [hpred] at hres
    have hlt : argmaxIdx (ovoTally ovo x) < ovo.classes.length := by
      have := argmaxIdx_lt_length htne
      omega
    have hmem : ovo.classes.getD (argmaxIdx (ovoTally ovo x)) UNCLASSIFIED ∈ ovo.classes := by
      rw [List.getD_eq_getElem _ _ hlt]
      exact List.getElem_mem hlt
    have hge := hcls _ hmem
    rw [hres] at hge
    simp only [UNCLASSIFIED] at hge
    omega

/-- Witness for C2: the worked OVO ensemble at sample 2, whose tally
[1, 1, 1] is a three-way tie. -/
theorem phase2_decision_rule_witness :
    (exOvo.classes ≠ [])
    ∧ (∀ c ∈ exOvo.classes, (0 : Int) ≤ c)
    ∧ (ovoPredictSingle exOvo 2 = UNCLASSIFIED ↔ 2 ≤ countMaxima (ovoTally exOvo 2)) :=
  ⟨by decide, by decide, (phase2_decision_rule exOvo 2 (by decide) (by decide)).1⟩

/-- C3: OVO enumeration and vote convention.  The engine's pair list has
C(C-1)/2 entries, contains exactly the pairs i < j < C, is emitted in
strictly increasing lexicographic order (a single running index), and the
final tally of class c counts exactly the pairwise estimators whose vote
went to c: estimator k (zipped with pair k) adds to tally[i] on prediction
0 and to tally[j] on prediction 1. -/
theorem ovo_enumeration_and_vote_convention {α : Type} (ovo : OVOEnsemble α) (x : α) :
    (ovoPairs ovo.classes.length).length
        = ovo.classes.length * (ovo.classes.length - 1) / 2
    ∧ (∀ i j : Nat, (i, j) ∈ ovoPairs ovo.classes.length ↔ i < j ∧ j < ovo.classes.length)
    ∧ (ovoPairs ovo.classes.length).Pairwise pairLexLt
    ∧ (∀ c : Nat, (ovoTally ovo x).getD c 0
        = ((ovoPairs ovo.classes.length).zip ovo.estimators).countP (pairVoteFor x c)) := by
  refine ⟨length_ovoPairs _, fun i j => mem_ovoPairs, pairwise_ovoPairs _, fun c => ?_⟩
  unfold ovoTally
  rw [foldl_ovoStep_getD]
  · have hz : (List.replicate ovo.classes.length (0 : Nat)).getD c 0 = 0 := by
      simp [List.getD_eq_getElem?_getD, List.getElem?_replicate]
      split <;> rfl
    rw [hz]
    omega
  · intro pe hpe
    obtain ⟨pij, e⟩ := pe
    obtain ⟨i, j⟩ := pij
    have hp : (i, j) ∈ ovoPairs ovo.classes.length := (List.of_mem_zip hpe).1
    have hij := mem_ovoPairs.mp hp
    rw [List.length_replicate]
    dsimp only
    exact ⟨by omega, hij.2⟩

end SvmAuthorRec

namespace SvmAuthorRec

/-- C4: Sum-to-one invariant.  For a fold's test set with genuine labels
(each in [0, C), so nonnegative), the correct, incorrect and unclassified
fractions computed by lines 527-529 and 546-548 sum to exactly 1, both
after phase 1 and after phase 2. -/
theorem fractions_sum_to_one {α : Type} (ovr : OVREnsemble α) (ovo : OVOEnsemble α)
    (xs : List α) (y_test : List Int) (hlen : xs.length = y_test.length)
    (hpos : 0 < y_test.length) (hy : ∀ y ∈ y_test, 0 ≤ y) :
    (correctFrac (phase1Predict ovr xs) y_test
        + incorrectFrac (phase1Predict ovr xs) y_test
        + unclassifiedFrac (phase1Predict ovr xs) y_test = 1)
    ∧ (correctFrac (hybridFoldPredict ovr ovo xs) y_test
        + incorrectFrac (hybridFoldPredict ovr ovo xs) y_test
        + unclassifiedFrac (hybridFoldPredict ovr ovo xs) y_test = 1) := by
  have main : ∀ pred : List Int, pred.length = y_test.length →
      correctFrac pred y_test + incorrectFrac pred y_test
        + unclassifiedFrac pred y_test = 1 := by
    intro pred hplen
    have hc := counts_partition pred y_test hplen hy
    have hn : (y_test.length : ℚ) ≠ 0 := Nat.cast_ne_zero.mpr (by omega)
    unfold correctFrac incorrectFrac unclassifiedFrac
    rw [div_add_div_same, div_add_div_same]
    rw [div_eq_one_iff_eq hn]
    exact_mod_cast hc
  exact ⟨main _ (by rw [phase1Predict_length, hlen]),
         main _ (by rw [hybridFoldPredict_length, hlen])⟩

/-- Witness for C4: the worked ensembles on the two-sample test set
[0, 3] with true labels [0, 2]. -/
theorem fractions_sum_to_one_witness :
    ([0, 3] : List Nat).length = ([0, 2] : List Int).length
    ∧ 0 < ([0, 2] : List Int).length
    ∧ (∀ y ∈ ([0, 2] : List Int), 0 ≤ y)
    ∧ ((correctFrac (phase1Predict exOvr [0, 3]) [0, 2]
          + incorrectFrac (phase1Predict exOvr [0, 3]) [0, 2]
          + unclassifiedFrac (phase1Predict exOvr [0, 3]) [0, 2] = 1)
        ∧ (correctFrac (hybridFoldPredict exOvr exOvo [0, 3]) [0, 2]
          + incorrectFrac (hybridFoldPredict exOvr exOvo [0, 3]) [0, 2]
          + unclassifiedFrac (hybridFoldPredict exOvr exOvo [0, 3]) [0, 2] = 1)) :=
  ⟨rfl, by decide, by decide,
    fractions_sum_to_one exOvr exOvo [0, 3] [0, 2] rfl (by decide) (by decide)⟩

/-- C5: Immutability after phase 1.  Phase 2 writes only at the recorded
unclassified indices, so any index outside that list keeps its phase-1
outcome in the final vector. -/
theorem phase2_immutability {α : Type} (ovr : OVREnsemble α) (ovo : OVOEnsemble α)
    (xs : List α) (i : Nat) (hi : i ∉ phase1UnclassifiedIdx ovr xs) :
    (hybridFoldPredict ovr ovo xs)[i]? = (phase1Predict ovr xs)[i]? :=
  phase2Update_getElem?_of_not_mem ovo xs _ _ i hi

/-- Witness for C5: sample index 0 is classified in phase 1 of the worked
example and its entry survives phase 2 unchanged. -/
theorem phase2_immutability_witness :
    (0 ∉ phase1UnclassifiedIdx exOvr [0, 3])
    ∧ (hybridFoldPredict exOvr exOvo [0, 3])[0]? = (phase1Predict exOvr [0, 3])[0]? :=
  ⟨by decide, phase2_immutability exOvr exOvo [0, 3] 0 (by decide)⟩

/-- C6 counterexample: on per-fold metrics [0.8, 0.9, 0.7] the code's
reported standard error (scipy.stats.sem, ddof = 1; compared through its
square) differs from the population standard error formula, so the claim
as stated fails: the mean is 0.8 but the standard error is not the
population one. -/
theorem reduction_population_sem_counterexample :
    mean [4/5, 9/10, 7/10] = 4/5
    ∧ semSq [4/5, 9/10, 7/10] ≠ popSemSq [4/5, 9/10, 7/10] := by
  constructor
  · norm_num [mean]
  · intro h
    norm_num [semSq, popSemSq, mean] at h

/-- C6 amended: the aggregator reports, per metric, the mean and the
SAMPLE standard error (Bessel-corrected, ddof = 1): on [0.8, 0.9, 0.7] it
reports mean 0.8 and squared standard error 1/300. -/
theorem reduction_reports_mean_and_sample_sem :
    reduceMetric [4/5, 9/10, 7/10] = (4/5, 1/300) := by
  norm_num [reduceMetric, Prod.ext_iff, mean, semSq]

/-- C7: Determinism of prediction.  Two runs of the phase-1 plus phase-2
pipeline on the same trained ensembles and test set agree sample by
sample: the prediction path is a pure function of its inputs. -/
theorem prediction_deterministic {α : Type} (ovr : OVREnsemble α) (ovo : OVOEnsemble α)
    (xs : List α) (run1 run2 : List Int) (i : Nat)
    (h1 : run1 = hybridFoldPredict ovr ovo xs)
    (h2 : run2 = hybridFoldPredict ovr ovo xs) :
    run1[i]? = run2[i]? := by
  rw [h1, h2]

/-- Witness for C7: two runs on the worked example agree at index 0. -/
theorem prediction_deterministic_witness :
    (hybridFoldPredict exOvr exOvo [0, 3] = hybridFoldPredict exOvr exOvo [0, 3])
    ∧ (hybridFoldPredict exOvr exOvo [0, 3])[0]? = (hybridFoldPredict exOvr exOvo [0, 3])[0]? :=
  ⟨rfl, prediction_deterministic exOvr exOvo [0, 3] _ _ 0 rfl rfl⟩

/-- C8: the UNCLASSIFIED sentinel (-1) lies outside every valid label
range [0, C); in particular it is never label 0. -/
theorem unclassified_sentinel_out_of_range (C c : Int) (h : 0 ≤ c ∧ c < C) :
    UNCLASSIFIED ≠ c ∧ UNCLASSIFIED ≠ 0 := by
  unfold UNCLASSIFIED
  omega

/-- Witness for C8: label 0 of a three-class problem. -/
theorem unclassified_sentinel_out_of_range_witness :
    ((0 : Int) ≤ 0 ∧ (0 : Int) < 3) ∧ (UNCLASSIFIED ≠ 0 ∧ UNCLASSIFIED ≠ 0) :=
  ⟨by decide, unclassified_sentinel_out_of_range 3 0 (by decide)⟩

/-- C9: configuration defaults.  The aggregator's fold loop runs exactly
NUMFOLDS = 10 repetitions and the splitter holds out the fraction
hybridTestSize = 0.35 = 7/20 of the samples. -/
theorem configuration_defaults {β : Type} (runFold : Nat → β) :
    (foldResults runFold).length = 10 ∧ NUMFOLDS = 10 ∧ hybridTestSize = 7 / 20 := by
  refine ⟨?_, by norm_num [NUMFOLDS], by norm_num [hybridTestSize]⟩
  rw [foldResults, List.length_map, List.length_range]
  rfl

/-- C10: batch evaluation of the phase-2 function is not per-sample
independent: whenever any row of a (two-or-more-row) input has a tied
maximal tally, get_ovo_estimators_prediction returns the single scalar -1
for the whole batch, discarding every other row's unique-maximum result. -/
theorem batch_tie_discards_batch {α : Type} (ovo : OVOEnsemble α) (X : List α)
    (_hrows : 2 ≤ X.length)
    (htie : ∃ x ∈ X, 2 ≤ countMaxima (ovoTally ovo x)) :
    get_ovo_estimators_prediction ovo X = Sum.inl (-1) := by
  have hany : (X.map (ovoTally ovo)).any (fun t => decide (1 < countMaxima t)) = true := by
    rw [List.any_eq_true]
    obtain ⟨x, hx, hc⟩ := htie
    refine ⟨ovoTally ovo x, List.mem_map_of_mem _ hx, ?_⟩
    simp only [decide_eq_true_eq]
    omega
  simp only [get_ovo_estimators_prediction]
  rw [if_pos hany]

/-- Witness for C10: the batch [0, 2] of the worked example, where row 2
ties three ways while row 0 has the unique maximum class 0; the whole
batch still collapses to -1. -/
theorem batch_tie_discards_batch_witness :
    2 ≤ ([0, 2] : List Nat).length
    ∧ (∃ x ∈ ([0, 2] : List Nat), 2 ≤ countMaxima (ovoTally exOvo x))
    ∧ get_ovo_estimators_prediction exOvo [0, 2] = Sum.inl (-1) :=
  ⟨by decide, by decide, batch_tie_discards_batch exOvo [0, 2] (by decide) (by decide)⟩

end SvmAuthorRec
